import Mathlib

/-!
Shallow embedding of the Camelot Texas Hold'em engine
(`src/camelot/core/hand_evaluator.py` and `src/camelot/game/poker_game.py`)
together with proofs settling the frozen specification claims.

Modelling conventions:
* chips are natural numbers (the Python code only ever works with
  non-negative integers on the reachable paths; where the Python code
  subtracts, the guards of the source make the subtraction non-negative,
  and `Nat` truncated subtraction is noted where it matters);
* logging, animation payloads, hand-history records and the audit trail of
  chip movements are elided: no claim mentions them and they feed back into
  no computation;
* card strings such as `"A♠"` are represented by their parsed form
  (`Card.rank`, `Card.suit`) throughout; the string-to-card parsing of
  `hand_evaluator.Card.__init__` is a bijection on valid card strings.
-/

namespace Camelot

/-- Card with numeric rank (2–14, 14 = Ace) and suit (0–3), the parsed form of
`hand_evaluator.Card` (fields `self.rank`, `self.suit`). -/
structure Card where
  rank : Nat
  suit : Nat
deriving DecidableEq, Repr

/-- Result of evaluating a poker hand: source class `HandEvaluation`.
`rank` is the category constant 1–10, `value` the tie-break tuple, `cards`
the five cards making the hand. The display `name` string is omitted (pure
presentation, read by nothing the claims mention). -/
structure HandEvaluation where
  rank : Nat
  value : List Nat
  cards : List Card
deriving DecidableEq, Repr

/-- Python lexicographic `<` on integer tuples (used by
`HandEvaluation.__lt__` for the tie-break values). -/
def listLt : List Nat → List Nat → Bool
  | [], [] => false
  | [], _ :: _ => true
  | _ :: _, [] => false
  | a :: as, b :: bs => if a < b then true else if b < a then false else listLt as bs

/-- Source `HandEvaluation.__lt__`: compare the category rank first, then the
tie-break tuples lexicographically. -/
def HandEvaluation.lt (a b : HandEvaluation) : Bool :=
  if a.rank ≠ b.rank then decide (a.rank < b.rank) else listLt a.value b.value

/-- Source `HandEvaluation.__eq__`: equal category and equal tie-break value
(the `cards` field is not compared). -/
def HandEvaluation.eqv (a b : HandEvaluation) : Bool :=
  decide (a.rank = b.rank) && decide (a.value = b.value)

/-- Python `sorted(cards, key=rank, reverse=True)`: stable descending sort by
rank (Mathlib's insertion sort is stable, like Python's sort). -/
def sortCardsDesc (cards : List Card) : List Card :=
  cards.insertionSort (fun a b => b.rank ≤ a.rank)

/-- Python `list(range(start, start - 5, -1))` from the straight test,
evaluated over the integers exactly as in the source. -/
def rangeDown5 (start : Int) : List Int :=
  [start, start - 1, start - 2, start - 3, start - 4]

/-- Rank multiplicities, `Counter(ranks)` in the source. Python's `Counter`
lists distinct ranks in first-occurrence order while `List.dedup` keeps last
occurrences; every use below immediately sorts by a strict total key (the
ranks are distinct), so the two orderings give identical downstream values. -/
def rankCounts (ranks : List Nat) : List (Nat × Nat) :=
  ranks.dedup.map (fun r => (r, ranks.count r))

/-- Source `counts = sorted(rank_counts.values(), reverse=True)`. -/
def countsOf (ranks : List Nat) : List Nat :=
  ((rankCounts ranks).map (·.2)).insertionSort (fun a b => b ≤ a)

/-- Source `rank_groups = sorted(rank_counts.items(), key=(count, rank),
reverse=True)`: descending lexicographic order on (multiplicity, rank). -/
def rankGroups (ranks : List Nat) : List (Nat × Nat) :=
  (rankCounts ranks).insertionSort
    (fun a b => b.2 < a.2 ∨ (b.2 = a.2 ∧ b.1 ≤ a.1))

/-- Body of `evaluate_five_cards` after the initial descending sort: the
source rebinds `cards` to the sorted list and computes everything from it.
Splitting here lets permutation invariance factor through the sorted form. -/
def evalSorted (cards : List Card) : HandEvaluation :=
  let suits := cards.map (·.suit)
  let isFlush : Bool := decide (suits.dedup.length = 1)
  let ranks := cards.map (·.rank)
  let r0 := ranks.headD 0
  let isStraightReg : Bool := decide (ranks.map (Int.ofNat) = rangeDown5 (Int.ofNat r0))
  let isWheel : Bool := decide (ranks = [14, 5, 4, 3, 2])
  let isStraight : Bool := isStraightReg || (!isStraightReg && isWheel)
  let straightHigh : Nat := if isStraightReg then r0 else if isWheel then 5 else 0
  let g := rankGroups ranks
  let counts := countsOf ranks
  if isStraight && isFlush then
    if ranks = [14, 13, 12, 11, 10] then
      ⟨10, [10], cards⟩
    else
      ⟨9, [straightHigh], cards⟩
  else if counts = [4, 1] then
    ⟨8, [(g.getD 0 (0, 0)).1, (g.getD 1 (0, 0)).1], cards⟩
  else if counts = [3, 2] then
    ⟨7, [(g.getD 0 (0, 0)).1, (g.getD 1 (0, 0)).1], cards⟩
  else if isFlush then
    ⟨6, ranks, cards⟩
  else if isStraight then
    ⟨5, [straightHigh], cards⟩
  else if counts = [3, 1, 1] then
    ⟨4, (g.getD 0 (0, 0)).1 :: (g.drop 1).map (·.1), cards⟩
  else if counts = [2, 2, 1] then
    let p1 := (g.getD 0 (0, 0)).1
    let p2 := (g.getD 1 (0, 0)).1
    let k := (g.getD 2 (0, 0)).1
    let pr := if p1 < p2 then (p2, p1) else (p1, p2)
    ⟨3, [pr.1, pr.2, k], cards⟩
  else if counts = [2, 1, 1, 1] then
    ⟨2, (g.getD 0 (0, 0)).1 ::
        (((g.drop 1).map (·.1)).insertionSort (fun a b => b ≤ a)), cards⟩
  else
    ⟨1, ranks, cards⟩

/-- Source `evaluate_five_cards`: sort the five cards by rank descending, then
classify. -/
def evaluateFiveCards (cards : List Card) : HandEvaluation :=
  evalSorted (sortCardsDesc cards)

/-- Accumulator of the `evaluate_hand` loop: replace the best candidate iff
the new evaluation is strictly greater (`eval_result > best_eval`, which
Python evaluates as `best_eval.__lt__(eval_result)`). -/
def betterOf (best : Option HandEvaluation) (e : HandEvaluation) : Option HandEvaluation :=
  match best with
  | none => some e
  | some b => if b.lt e then some e else some b

/-- Source `evaluate_hand`: best evaluation over all five-card combinations of
hole plus community cards. The enumeration order of the combinations affects
at most the `cards` field of the result (on ties), never rank or value. -/
def evaluateHand (holeCards communityCards : List Card) : Option HandEvaluation :=
  (((holeCards ++ communityCards).sublistsLen 5).map evaluateFiveCards).foldl betterOf none

/-- Concrete wheel hand A-2-3-4-5, not all of one suit. -/
def wheelHand : List Card := [⟨14, 0⟩, ⟨2, 1⟩, ⟨3, 2⟩, ⟨4, 3⟩, ⟨5, 0⟩]

/-- Concrete six-high straight 2-3-4-5-6, not all of one suit. -/
def sixHighHand : List Card := [⟨2, 0⟩, ⟨3, 1⟩, ⟨4, 2⟩, ⟨5, 3⟩, ⟨6, 0⟩]

/-! ## Game engine data model (`poker_game.py`) -/

/-- Source enum `PlayerAction`. -/
inductive PlayerAction where
  | check
  | call
  | raiseBet
  | fold
  | allIn
deriving DecidableEq, Repr

/-- Source enum `GamePhase`. -/
inductive GamePhase where
  | waiting
  | preFlop
  | flop
  | turn
  | river
  | showdown
  | gameOver
deriving DecidableEq, Repr

/-- Source dataclass `Player`. The fields `name`, `is_ai` and `is_active`
are presentation/bookkeeping only (read by serialization and animations,
never by the betting, pot or payout logic) and are elided, as are the
transient `_won_amount`/`_winning_hand` hand-history attributes. -/
structure Player where
  id : String
  stack : Nat
  position : Nat
  hasFolded : Bool
  holeCards : List Card
  currentBet : Nat
  totalBetThisHand : Nat
  lastAction : Option PlayerAction
deriving DecidableEq, Repr

/-- Source dataclass `Pot`. -/
structure Pot where
  amount : Nat
  eligiblePlayers : List String
deriving DecidableEq, Repr

/-- Source dataclass `GameState`. The shuffled `deck` and the animation
fields (`last_action_info`, `pending_animations`, `cards_dealt_for_phase`)
are elided: none of the action-processing paths embedded here read them.
`game_id` and `hand_number` are identification bookkeeping and are elided
too. `action_on` is an integer because the source uses `-1` for "nobody can
act" and Python list indexing accepts negative indices. -/
structure GameState where
  phase : GamePhase
  players : List Player
  boardCards : List Card
  pots : List Pot
  currentBet : Nat
  minRaise : Nat
  dealerPosition : Nat
  actionOn : Int
  bigBlind : Nat
  smallBlind : Nat
  awaitingCardDeal : Bool
  allPlayersAllIn : Bool
deriving DecidableEq, Repr

/-- Game configuration: the fields of `game_config` that the engine reads. -/
structure Config where
  heroStack : Nat
  opponentStacks : List Nat
  bigBlind : Nat
deriving DecidableEq, Repr

/-- Source `GameState.get_players_in_hand`. -/
def getPlayersInHand (st : GameState) : List Player :=
  st.players.filter (fun p => !p.hasFolded)

/-- Source `GameState.get_active_players`. -/
def getActivePlayers (st : GameState) : List Player :=
  st.players.filter (fun p => !p.hasFolded && decide (p.stack > 0))

/-- Total chips sitting in front of the players: `sum(p.stack)` plus
`sum(p.total_bet_this_hand)`, the quantity `_validate_game_state` checks
against the configured total. -/
def totalChips (st : GameState) : Nat :=
  (st.players.map (·.stack)).sum + (st.players.map (·.totalBetThisHand)).sum

/-- Expected total chips derived from the configuration, as computed in
`_validate_game_state` and `_calculate_pots`. -/
def expectedTotal (cfg : Config) : Nat :=
  cfg.heroStack * cfg.bigBlind + (cfg.opponentStacks.map (· * cfg.bigBlind)).sum

/-! ## Pot engine (`_calculate_pots`) -/

/-- Distinct positive `total_bet_this_hand` levels of non-folded players,
sorted ascending: the `bet_amounts` list of `_calculate_pots`. The source
builds the list in first-occurrence order before sorting while `List.dedup`
keeps last occurrences; sorting erases the difference. -/
def betLevels (players : List Player) : List Nat :=
  ((players.filter (fun p => decide (p.totalBetThisHand > 0) && !p.hasFolded)).map
    (·.totalBetThisHand)).dedup.insertionSort (· ≤ ·)

/-- Loop `for bet_level in bet_amounts` of `_calculate_pots`: one pot slice
per level, carrying the previous level along. -/
def potsFromLevels (players : List Player) : Nat → List Nat → List Pot
  | _, [] => []
  | previousLevel, betLevel :: rest =>
    let potAmount := (players.map (fun p =>
      if p.totalBetThisHand > previousLevel then
        min (betLevel - previousLevel) (p.totalBetThisHand - previousLevel)
      else 0)).sum
    let eligiblePlayers := (players.filter (fun p =>
      decide (p.totalBetThisHand > previousLevel) && !p.hasFolded &&
        decide (p.totalBetThisHand ≥ betLevel))).map (·.id)
    (if potAmount > 0 && !eligiblePlayers.isEmpty then
      [⟨potAmount, eligiblePlayers⟩] else []) ++
      potsFromLevels players betLevel rest

/-- Source `_calculate_pots`. Mutation of `self.state` is rendered as a
state-to-state function; the chip-integrity log lines at the end of the
source function have no state effect and are elided. -/
def calculatePots (st : GameState) : GameState :=
  if !st.pots.isEmpty && (st.pots.map (·.amount)).sum > 0 then st
  else
    match st.players.filter (fun p => !p.hasFolded) with
    | [winner] =>
      let foldedBets := (st.players.filter (fun p =>
        p.hasFolded && decide (p.totalBetThisHand > 0))).map (·.totalBetThisHand)
      if !foldedBets.isEmpty then
        let maxCalled := foldedBets.foldl max 0
        let potSize := (st.players.map (fun p => min p.totalBetThisHand maxCalled)).sum
        let uncalled := winner.totalBetThisHand - maxCalled
        let players' := if uncalled > 0 then
            st.players.map (fun p =>
              if p.id = winner.id then { p with stack := p.stack + uncalled } else p)
          else st.players
        { st with pots := [⟨potSize, [winner.id]⟩], players := players' }
      else
        { st with pots := [],
                  players := st.players.map (fun p =>
                    if p.id = winner.id then
                      { p with stack := p.stack + p.totalBetThisHand, totalBetThisHand := 0 }
                    else { p with totalBetThisHand := 0 }) }
    | _ =>
      { st with pots := potsFromLevels st.players 0 (betLevels st.players) }

/-- Pot computation exactly as §4.2 of the spec words it (for the C2
refinement comparison): for each level `L` of `betLevels` with predecessor
`P`, a pot of amount `Σ over all players (min(L, c) - min(P, c))`, eligible
exactly to the non-folded players with `c ≥ L`. -/
def specPots (players : List Player) : List Pot :=
  let levels := betLevels players
  (levels.zip (0 :: levels)).map (fun LP =>
    ⟨(players.map (fun p =>
        min LP.1 p.totalBetThisHand - min LP.2 p.totalBetThisHand)).sum,
     (players.filter (fun p =>
        !p.hasFolded && decide (p.totalBetThisHand ≥ LP.1))).map (·.id)⟩)

/-- Split of one pot among its winners, from the `_resolve_showdown` loop
`for j, winner_id in enumerate(winner_ids)`: each winner receives
`split_amount = pot.amount // len(winner_ids)`, and the first winner (`j = 0`)
additionally receives the remainder `pot.amount % len(winner_ids)`. -/
def splitAwards (amount : Nat) (winnerIds : List String) : List (String × Nat) :=
  winnerIds.enum.map (fun jw =>
    (jw.2, amount / winnerIds.length + if jw.1 = 0 then amount % winnerIds.length else 0))

/-- Maximum of two tie-break keys under Python tuple comparison, keeping the
left key on ties (the behaviour of the `evaluate_hand` accumulator). -/
def maxK (a b : List Nat) : List Nat := if listLt a b then b else a

/-- Comparison key of an evaluation: rank followed by the tie-break value.
`HandEvaluation.__lt__` is exactly Python tuple comparison on this key. -/
def keyOf (e : HandEvaluation) : List Nat := e.rank :: e.value

/-- Best key of a list of keys under Python tuple comparison, first maximum
kept — the key-level shadow of the `evaluate_hand` fold. -/
def bestKey (ks : List (List Nat)) : Option (List Nat) :=
  ks.foldl (fun acc k =>
    match acc with
    | none => some k
    | some m => some (maxK m k)) none

/-- Linear code for canonically ordering cards: injective pairing of rank
and suit. -/
def cardCode (c : Card) : Nat := Nat.pair c.rank c.suit

instance : IsTrans Card (fun a b => cardCode a ≤ cardCode b) :=
  ⟨fun _ _ _ h1 h2 => le_trans h1 h2⟩

instance : IsTotal Card (fun a b => cardCode a ≤ cardCode b) :=
  ⟨fun _ _ => le_total _ _⟩

instance : IsAntisymm Card (fun a b => cardCode a ≤ cardCode b) :=
  ⟨fun a b h1 h2 => by
    have h := Nat.pair_eq_pair.mp (le_antisymm h1 h2)
    cases a
    cases b
    simp only at h
    simp [h.1, h.2]⟩

/-- Key of `evaluate_five_cards` as a function of the multiset of the five
cards, through a canonical reordering; used only to transport permutation
invariance of the evaluator to the seven-card fold. -/
def evalKeyM (m : Multiset Card) : List Nat :=
  keyOf (evaluateFiveCards (m.sort (fun a b => cardCode a ≤ cardCode b)))

/-- Concrete fold-out state for the C3 witness: winner `w` bet 200, folded
players contributed 150 and 50, so 150 of the winner's bet was called. -/
def foldOutState : GameState :=
  { phase := GamePhase.flop,
    players :=
      [⟨"w", 800, 0, false, [], 0, 200, some PlayerAction.raiseBet⟩,
       ⟨"f1", 0, 1, true, [], 0, 150, some PlayerAction.fold⟩,
       ⟨"f2", 100, 2, true, [], 0, 50, some PlayerAction.fold⟩],
    boardCards := [], pots := [], currentBet := 0, minRaise := 10,
    dealerPosition := 0, actionOn := -1, bigBlind := 10, smallBlind := 5,
    awaitingCardDeal := false, allPlayersAllIn := false }

/-- Winner of `foldOutState`. -/
def foldOutWinner : Player := ⟨"w", 800, 0, false, [], 0, 200, some PlayerAction.raiseBet⟩

/-! ## Betting state machine (`_do_process_action` and friends) -/

/-- Python list indexing `l[i]`: a negative index addresses from the end,
out-of-range indexing raises `IndexError` (source: `players[action_on]`). -/
def pyIndex (l : List α) (i : Int) : Except String α :=
  let j : Int := if i < 0 then (l.length : Int) + i else i
  if 0 ≤ j then
    match l.get? j.toNat with
    | some a => Except.ok a
    | none => Except.error "list index out of range"
  else Except.error "list index out of range"

/-- Fallback player for the in-range positional accesses below (positions are
reduced `% players.length` in the source, so the fallback is never selected
when the player list is non-empty). -/
def dummyPlayer : Player := ⟨"", 0, 0, false, [], 0, 0, none⟩

/-- Source `_get_player_by_id`. -/
def getPlayerById (st : GameState) (playerId : String) : Option Player :=
  st.players.find? (fun p => p.id = playerId)

/-- Source `_get_small_blind_position`. -/
def getSmallBlindPosition (st : GameState) : Nat :=
  let n := st.players.length
  if (st.players.filter (fun p => decide (p.stack > 0))).length ≤ 2 then
    st.dealerPosition
  else
    match (List.range' 1 n).find? (fun i =>
        decide ((st.players.getD ((st.dealerPosition + i) % n) dummyPlayer).stack > 0)) with
    | some i => (st.dealerPosition + i) % n
    | none => st.dealerPosition

/-- Final loop of `_get_big_blind_position`: the second active seat after the
dealer, with the dealer position as the fallback. -/
def secondActiveLoop (st : GameState) : List Nat → Nat → Nat
  | [], _ => st.dealerPosition
  | i :: rest, count =>
    let pos := (st.dealerPosition + i) % st.players.length
    if (st.players.getD pos dummyPlayer).stack > 0 then
      if count + 1 = 2 then pos else secondActiveLoop st rest (count + 1)
    else secondActiveLoop st rest count

/-- Source `_get_big_blind_position`. In the heads-up branch the source
falls through to the generic loop when its own loop finds no seat. -/
def getBigBlindPosition (st : GameState) : Nat :=
  let n := st.players.length
  if (st.players.filter (fun p => decide (p.stack > 0))).length ≤ 2 then
    match (List.range' 1 n).find? (fun i =>
        decide ((st.players.getD ((st.dealerPosition + i) % n) dummyPlayer).stack > 0)) with
    | some i => (st.dealerPosition + i) % n
    | none => secondActiveLoop st (List.range' 1 n) 0
  else secondActiveLoop st (List.range' 1 n) 0

/-- Source `_get_first_to_act_position`. -/
def getFirstToActPosition (st : GameState) : Int :=
  let n := st.players.length
  let start := if st.phase = GamePhase.preFlop then (getBigBlindPosition st + 1) % n
               else (st.dealerPosition + 1) % n
  match (List.range n).find? (fun i =>
      let p := st.players.getD ((start + i) % n) dummyPlayer
      !p.hasFolded && decide (p.stack > 0)) with
  | some i => ((start + i) % n : Nat)
  | none => -1

/-- Source `GameState.get_next_active_position` (also reached through the
`_get_next_active_position` wrapper); Python's `%` on a possibly negative
`position` is `Int.emod`. -/
def getNextActivePosition (st : GameState) (position : Int) : Int :=
  let n := st.players.length
  match (List.range' 1 n).find? (fun i =>
      let p := st.players.getD (((position + (i : Int)).emod n).toNat) dummyPlayer
      !p.hasFolded && decide (p.stack > 0) &&
        (decide (p.currentBet < st.currentBet) || decide (p.lastAction = none))) with
  | some i => (position + (i : Int)).emod n
  | none => -1

/-- Source `_place_bet`: the actual bet is capped by the player's stack;
stack, round bet and hand total move together (chip-movement audit record
elided). -/
def placeBet (p : Player) (amount : Nat) : Player :=
  let actualBet := min amount p.stack
  { p with stack := p.stack - actualBet,
           currentBet := p.currentBet + actualBet,
           totalBetThisHand := p.totalBetThisHand + actualBet }

/-- In-place mutation of one player object, rendered as an id-keyed update
(player ids — `"hero"`, `"ai_1"`, … — are unique by construction). -/
def setPlayer (st : GameState) (p' : Player) : GameState :=
  { st with players := st.players.map (fun q => if q.id = p'.id then p' else q) }

/-- Source `_is_betting_round_complete`. The pre-flop big-blind-option branch
of the source compares a `Player` object to a player-name string (always
unequal) and is additionally guarded by `last_action is None`, which an
earlier branch already consumed: it never counts, so it is dropped here. -/
def isBettingRoundComplete (st : GameState) : Bool :=
  let playersInHand := st.players.filter (fun p => !p.hasFolded)
  let activePlayers := playersInHand.filter (fun p => decide (p.stack > 0))
  if playersInHand.length ≤ 1 then true
  else if activePlayers.length = 0 then true
  else
    decide (activePlayers.countP (fun p =>
      !decide (p.stack = 0) &&
        (decide (p.lastAction = none) || decide (p.currentBet < st.currentBet))) = 0)

/-- Source `get_winning_players`/`compare_hands`: evaluate each player's hole
cards against the board; winners are every player whose evaluation equals
the maximum under `HandEvaluation.__eq__` (which ignores the `cards` field).
`evaluate_hand` returns `some` whenever five or more cards are supplied,
which the showdown guard (two hole cards plus a five-card board)
guarantees. -/
def getWinningPlayers (holeCards : List (String × List Card)) (community : List Card) :
    List String :=
  let evaluations := holeCards.map (fun pc => (pc.1, evaluateHand pc.2 community))
  match (evaluations.filterMap (·.2)).foldl betterOf none with
  | none => []
  | some best =>
    (evaluations.filter (fun pe =>
      match pe.2 with
      | some e => e.eqv best
      | none => false)).map (·.1)

/-- Tail of `_resolve_showdown`: clear the pots and every player's bets once
the awards are made (hand-history recording elided). -/
def clearAfterShowdown (st : GameState) : GameState :=
  { st with pots := [],
            players := st.players.map (fun p =>
              { p with totalBetThisHand := 0, currentBet := 0 }) }

/-- Source `_resolve_showdown` (state-passing; card-reveal animations, the
winner bookkeeping for hand history and the celebration are elided). -/
def resolveShowdown (st : GameState) : GameState :=
  if st.phase ≠ GamePhase.showdown ∧ st.phase ≠ GamePhase.gameOver then st
  else if st.pots.isEmpty || decide ((st.pots.map (·.amount)).sum = 0) then st
  else
    let activePlayers := getPlayersInHand st
    match activePlayers with
    | [winner] =>
      let totalWon := ((st.pots.filter (fun pot =>
          pot.eligiblePlayers.contains winner.id)).map (·.amount)).sum
      clearAfterShowdown (setPlayer st { winner with stack := winner.stack + totalWon })
    | _ =>
      if st.boardCards.length < 5 then st
      else
        clearAfterShowdown (st.pots.foldl (fun acc pot =>
          let eligibleInPot := activePlayers.filter (fun p =>
            pot.eligiblePlayers.contains p.id)
          if eligibleInPot.isEmpty then acc
          else
            let winnerIds := getWinningPlayers
              (eligibleInPot.map (fun p => (p.id, p.holeCards))) st.boardCards
            (splitAwards pot.amount winnerIds).foldl (fun acc2 aw =>
              { acc2 with players := acc2.players.map (fun q =>
                  if q.id = aw.1 then { q with stack := q.stack + aw.2 } else q) }) acc) st)

/-- Bet reset at the top of `_advance_phase`: round bets cleared for all,
`last_action` cleared only for non-folded players with chips. -/
def resetBetsForNewRound (st : GameState) : GameState :=
  { st with players := st.players.map (fun p =>
      if !p.hasFolded && decide (p.stack > 0) then
        { p with currentBet := 0, lastAction := none }
      else { p with currentBet := 0 }) }

/-- Tail of `_advance_phase` for the card phases: set the action position and
lock the pots when everyone left in the hand is all-in. -/
def afterAdvance (st : GameState) : GameState :=
  let st := { st with actionOn := getFirstToActPosition st }
  if st.actionOn = -1 then
    let activePlayers := st.players.filter (fun p => !p.hasFolded && decide (p.stack > 0))
    let playersInHand := st.players.filter (fun p => !p.hasFolded)
    if activePlayers.length = 0 && playersInHand.length > 1 then
      calculatePots { st with allPlayersAllIn := true }
    else st
  else st

/-- Source `_advance_phase` (animations and the rapid-transition log check
elided; card dealing is deferred to `deal_next_phase_cards` by
`awaiting_card_deal`, exactly as in the source). -/
def advancePhase (st : GameState) : GameState :=
  let st := resetBetsForNewRound st
  let st := { st with currentBet := 0, minRaise := st.bigBlind }
  match st.phase with
  | GamePhase.preFlop =>
    let st := if st.boardCards.length > 0 then { st with boardCards := [] } else st
    afterAdvance { st with phase := GamePhase.flop, awaitingCardDeal := true }
  | GamePhase.flop =>
    afterAdvance { st with phase := GamePhase.turn, awaitingCardDeal := true }
  | GamePhase.turn =>
    afterAdvance { st with phase := GamePhase.river, awaitingCardDeal := true }
  | GamePhase.river =>
    if st.boardCards.length ≠ 5 then st
    else resolveShowdown (calculatePots { st with phase := GamePhase.showdown })
  | GamePhase.showdown => st
  | GamePhase.gameOver => st
  | GamePhase.waiting => afterAdvance st

/-- Per-action branch of `_do_process_action` (the `if action ==` chain):
either a rejection message (no state change) or the updated state. -/
def applyAction (st : GameState) (player : Player) (action : PlayerAction)
    (amount : Nat) : Sum String GameState :=
  match action with
  | PlayerAction.fold =>
    Sum.inr (setPlayer st
      { player with hasFolded := true, lastAction := some PlayerAction.fold })
  | PlayerAction.check =>
    if st.phase = GamePhase.preFlop then
      if player.position = getBigBlindPosition st then
        if st.currentBet > st.bigBlind then Sum.inl "Cannot check, must call or fold"
        else Sum.inr (setPlayer st { player with lastAction := some PlayerAction.check })
      else if player.position = getSmallBlindPosition st then
        Sum.inl "Cannot check, must call or fold"
      else if st.currentBet > player.currentBet then
        Sum.inl "Cannot check, must call or fold"
      else Sum.inr (setPlayer st { player with lastAction := some PlayerAction.check })
    else
      if st.currentBet > player.currentBet then Sum.inl "Cannot check, must call or fold"
      else Sum.inr (setPlayer st { player with lastAction := some PlayerAction.check })
  | PlayerAction.call =>
    let toCall := st.currentBet - player.currentBet
    let callAmount := min toCall player.stack
    let pb := placeBet player callAmount
    Sum.inr (setPlayer st { pb with lastAction := some PlayerAction.call })
  | PlayerAction.raiseBet =>
    if amount < st.minRaise then Sum.inl "Minimum raise not met"
    else
      let raiseTo := st.currentBet + amount
      let betAmount := min (raiseTo - player.currentBet) player.stack
      let pb := placeBet player betAmount
      let pNew := { pb with lastAction := some PlayerAction.raiseBet }
      let stNew := setPlayer st pNew
      Sum.inr { stNew with
        currentBet := pNew.currentBet,
        minRaise := max amount st.minRaise }
  | PlayerAction.allIn =>
    let pb := placeBet player player.stack
    let pNew := { pb with lastAction := some PlayerAction.allIn }
    let stNew := setPlayer st pNew
    Sum.inr (if pNew.currentBet > st.currentBet then
      { stNew with currentBet := pNew.currentBet } else stNew)

/-- Result dictionary of `process_action`/`_do_process_action`: the success
flag, the error message, the serialized state (modelled as the state record
itself) and the attached validation errors. -/
structure ActionResult where
  success : Bool
  error : Option String
  state : Option GameState
  validationErrors : List String
deriving DecidableEq, Repr

/-- Rejection result `{"success": False, "error": msg}`. -/
def failRes (msg : String) : ActionResult :=
  { success := false, error := some msg, state := none, validationErrors := [] }

/-- Success result `{"success": True, "state": serialize(st)}`. -/
def okRes (st : GameState) : ActionResult :=
  { success := true, error := none, state := some st, validationErrors := [] }

/-- Source `_do_process_action` (logging and animation payloads elided). The
mutation of `self.state` is threaded explicitly; the one Python exception the
embedded path can raise — `IndexError` from `players[action_on]` — travels in
the `Except` error channel, rejections travel in the result. In the fold-win
branch, the winner is the single non-folded player of the post-pot state
(`_calculate_pots` preserves fold flags, so the list is exactly one player
and the `headD` default is never selected; the source indexes
`players_in_hand[0]` of the same live objects). -/
def doProcessAction (st : GameState) (playerId : String) (action : PlayerAction)
    (amount : Nat) : Except String (GameState × ActionResult) := do
  if st.phase = GamePhase.gameOver then
    return (st, failRes "Hand is already over")
  if st.phase = GamePhase.waiting then
    return (st, failRes "No hand in progress")
  match getPlayerById st playerId with
  | none => return (st, failRes "Invalid player")
  | some player =>
    if player.hasFolded then
      return (st, failRes "Cannot act after folding")
    let actor ← pyIndex st.players st.actionOn
    if actor.id ≠ playerId then
      return (st, failRes "Not your turn")
    match applyAction st player action amount with
    | Sum.inl msg => return (st, failRes msg)
    | Sum.inr st₁ =>
      let playersInHand := getPlayersInHand st₁
      if playersInHand.length = 1 then
        let st₂ := calculatePots st₁
        let winner := (getPlayersInHand st₂).headD dummyPlayer
        let totalWon := ((st₂.pots.filter (fun pot =>
            pot.eligiblePlayers.contains winner.id)).map (·.amount)).sum
        let st₃ := setPlayer st₂ { winner with stack := winner.stack + totalWon }
        let st₄ := { st₃ with
          pots := [],
          players := st₃.players.map (fun p =>
            { p with totalBetThisHand := 0, currentBet := 0 }),
          phase := GamePhase.gameOver,
          actionOn := -1 }
        return (st₄, okRes st₄)
      else if playersInHand.length = 0 then
        return (st₁, failRes "No players remaining in hand")
      else
        let st₂ := if isBettingRoundComplete st₁ then advancePhase st₁
                   else { st₁ with actionOn := getNextActivePosition st₁ st₁.actionOn }
        return (st₂, okRes st₂)

/-- Source `_validate_game_state`. Error strings are abbreviated tags (the
source interpolates the offending amounts); warnings are elided — the
`process_action` wrapper reads only `errors`. With `Nat` chips the
negative-stack and negative-bet checks can never fire; they are kept for
structural fidelity. -/
def validateGameState (cfg : Config) (st : GameState) : List String :=
  let chipErrors :=
    if totalChips st ≠ expectedTotal cfg then ["Chip integrity error"] else []
  let playerErrors := st.players.foldl (fun acc p =>
    acc ++ (if p.stack < 0 then ["negative stack"] else [])
        ++ (if p.currentBet < 0 then ["negative current bet"] else [])) []
  let positionErrors :=
    if st.phase ∉ [GamePhase.gameOver, GamePhase.waiting, GamePhase.showdown] then
      if st.allPlayersAllIn && decide (st.actionOn = -1) then []
      else if st.actionOn < 0 ∨ (st.players.length : Int) ≤ st.actionOn then
        ["Invalid action position"]
      else
        match st.players.get? st.actionOn.toNat with
        | some actionPlayer =>
          if actionPlayer.hasFolded then ["Action is on folded player"] else []
        | none => []
    else []
  let expectedCards : GamePhase → Nat := fun ph =>
    match ph with
    | GamePhase.preFlop => 0
    | GamePhase.flop => 3
    | GamePhase.turn => 4
    | GamePhase.river => 5
    | GamePhase.showdown => 5
    | GamePhase.gameOver => 5
    | GamePhase.waiting => 0
  let boardErrors :=
    if st.boardCards.length ≠ expectedCards st.phase ∧ ¬st.awaitingCardDeal ∧
        ¬(st.phase = GamePhase.gameOver ∧ st.boardCards.length < 5) then
      ["Phase/board mismatch"]
    else []
  chipErrors ++ playerErrors ++ positionErrors ++ boardErrors

/-! ## Concurrency/transaction shell (`process_action`) -/

/-- The `PokerGame` fields `process_action` touches: game state, config,
state version, the request-id result cache (`request_id ↦ (timestamp,
result)`) and the snapshot ring for rollback. The asyncio lock serialises
calls, so a sequential embedding needs no lock object; timestamps
(`time.time()`) are passed in by the caller as whole seconds. -/
structure Session where
  state : GameState
  config : Config
  stateVersion : Nat
  processedRequests : List (String × Nat × ActionResult)
  snapshots : List (Nat × GameState)
deriving DecidableEq, Repr

/-- Source `_request_cache_ttl` (5 seconds). -/
def requestCacheTTL : Nat := 5

/-- Source `_max_snapshots`. -/
def maxSnapshots : Nat := 10

/-- Source `_cleanup_request_cache`: drop entries older than the TTL. -/
def cleanupRequestCache (s : Session) (now : Nat) : Session :=
  { s with processedRequests :=
      s.processedRequests.filter (fun e => !decide (now - e.2.1 > requestCacheTTL)) }

/-- Source `_create_state_snapshot`: store a snapshot keyed by the current
state version (Python dict assignment overwrites an existing key) and evict
the oldest entries beyond the ring size; keys only grow, so dropping from
the front is the source's `sorted(keys)[:-max]` eviction. The deep copy is
value semantics here; the chip-movement count is elided with the audit
trail. -/
def createSnapshot (s : Session) : Session :=
  let snaps := s.snapshots.filter (fun e => e.1 ≠ s.stateVersion) ++
    [(s.stateVersion, s.state)]
  { s with snapshots := if snaps.length > maxSnapshots then
      snaps.drop (snaps.length - maxSnapshots) else snaps }

/-- Source `_restore_state_snapshot` (`none` when the version is not in the
ring, the source's `return False`). -/
def restoreStateSnapshot (s : Session) (version : Nat) : Option Session :=
  match s.snapshots.find? (fun e => e.1 = version) with
  | some e => some { s with state := e.2, stateVersion := e.1 }
  | none => none

/-- Source `process_action`: request-id deduplication, then — inside the
lock — game-over check, snapshot, mutation, version bump, post-action
validation, result caching, and rollback on an unexpected exception. -/
def processAction (s : Session) (playerId : String) (action : PlayerAction)
    (amount : Nat) (requestId : Option String) (now : Nat) : Session × ActionResult :=
  let locked : Session → Session × ActionResult := fun s =>
    if s.state.phase = GamePhase.gameOver then (s, failRes "Game is over")
    else
      let stateVersionBefore := s.stateVersion
      let s := createSnapshot s
      match doProcessAction s.state playerId action amount with
      | Except.ok (st', r) =>
        if r.success then
          let s := { s with state := st', stateVersion := s.stateVersion + 1 }
          let errs := validateGameState s.config s.state
          let r := if errs ≠ [] then { r with validationErrors := errs } else r
          let s := match requestId with
            | some rid => { s with processedRequests :=
                s.processedRequests ++ [(rid, now, r)] }
            | none => s
          (s, r)
        else ({ s with state := st' }, r)
      | Except.error e =>
        match restoreStateSnapshot s stateVersionBefore with
        | some s' => (s', failRes e)
        | none => (s, failRes e)
  match requestId with
  | some rid =>
    let s := cleanupRequestCache s now
    match s.processedRequests.find? (fun e => e.1 = rid) with
    | some e => (s, e.2.2)
    | none => locked s
  | none => locked s

/-! ## Concrete scenario states used by the claim theorems -/

/-- Flop state: hero (stack 30, nothing committed this round) faces a bet of
100 with `min_raise` 100; a third player is still to act. Hero cannot fund
the legal minimum raise (needs 200). -/
def shortStackRaiseState : GameState :=
  { phase := GamePhase.flop,
    players :=
      [⟨"hero", 30, 0, false, [], 0, 0, none⟩,
       ⟨"ai_1", 900, 1, false, [], 100, 100, some PlayerAction.raiseBet⟩,
       ⟨"ai_2", 500, 2, false, [], 0, 0, none⟩],
    boardCards := [⟨4, 0⟩, ⟨7, 2⟩, ⟨9, 3⟩], pots := [], currentBet := 100,
    minRaise := 100, dealerPosition := 2, actionOn := 0, bigBlind := 10,
    smallBlind := 5, awaitingCardDeal := false, allPlayersAllIn := false }

/-- Flop state: hero (stack 40) faces a bet of 100 — calling takes the whole
stack. -/
def shortStackCallState : GameState :=
  { phase := GamePhase.flop,
    players :=
      [⟨"hero", 40, 0, false, [], 0, 0, none⟩,
       ⟨"ai_1", 900, 1, false, [], 100, 100, some PlayerAction.raiseBet⟩,
       ⟨"ai_2", 500, 2, false, [], 0, 0, none⟩],
    boardCards := [⟨4, 0⟩, ⟨7, 2⟩, ⟨9, 3⟩], pots := [], currentBet := 100,
    minRaise := 100, dealerPosition := 2, actionOn := 0, bigBlind := 10,
    smallBlind := 5, awaitingCardDeal := false, allPlayersAllIn := false }

/-- River state reached when hero raised to 200 pre-flop, both opponents
went all-in for 150, and hero checked down to the river: hero is the only
player who can act, the board is complete, and 500 chips are committed
(`200 + 150 + 150`) against 800 behind. Configured total: `(100 + 15 + 15)
big blinds of 10 = 1300`. -/
def chipLossState : GameState :=
  { phase := GamePhase.river,
    players :=
      [⟨"hero", 800, 0, false, [⟨2, 3⟩, ⟨7, 1⟩], 0, 200, none⟩,
       ⟨"ai_1", 0, 1, false, [⟨14, 0⟩, ⟨14, 1⟩], 0, 150, some PlayerAction.allIn⟩,
       ⟨"ai_2", 0, 2, false, [⟨13, 0⟩, ⟨13, 1⟩], 0, 150, some PlayerAction.allIn⟩],
    boardCards := [⟨4, 0⟩, ⟨7, 2⟩, ⟨9, 3⟩, ⟨11, 0⟩, ⟨12, 1⟩],
    pots := [], currentBet := 0, minRaise := 10, dealerPosition := 0,
    actionOn := 0, bigBlind := 10, smallBlind := 5,
    awaitingCardDeal := false, allPlayersAllIn := false }

/-- Session around `chipLossState`. -/
def chipLossSession : Session :=
  { state := chipLossState, config := ⟨100, [15, 15], 10⟩, stateVersion := 0,
    processedRequests := [], snapshots := [] }

/-- Two-player flop state with nothing bet: hero to act and free to check. -/
def checkState : GameState :=
  { phase := GamePhase.flop,
    players :=
      [⟨"hero", 500, 0, false, [], 0, 0, none⟩,
       ⟨"ai_1", 900, 1, false, [], 0, 0, none⟩],
    boardCards := [⟨4, 0⟩, ⟨7, 2⟩, ⟨9, 3⟩], pots := [], currentBet := 0,
    minRaise := 10, dealerPosition := 0, actionOn := 0, bigBlind := 10,
    smallBlind := 5, awaitingCardDeal := false, allPlayersAllIn := false }

/-- Session around `checkState`. -/
def checkSession : Session :=
  { state := checkState, config := ⟨50, [90], 10⟩, stateVersion := 0,
    processedRequests := [], snapshots := [] }

/-- `checkState` with a corrupted action position (5, past the two seats):
processing any in-phase action from a live player raises `IndexError` at
`self.state.players[self.state.action_on]`. -/
def badIndexState : GameState :=
  { checkState with actionOn := 5 }

/-- Session around `badIndexState`. -/
def badIndexSession : Session :=
  { state := badIndexState, config := ⟨50, [90], 10⟩, stateVersion := 0,
    processedRequests := [], snapshots := [] }

/-! ## Lemmas about the pot engine -/

lemma mem_betLevels {players : List Player} {L : Nat} (h : L ∈ betLevels players) :
    0 < L ∧ ∃ p ∈ players, p.hasFolded = false ∧ p.totalBetThisHand = L := by
  unfold betLevels at h
  rw [(List.perm_insertionSort _ _).mem_iff, List.mem_dedup, List.mem_map] at h
  obtain ⟨p, hp, rfl⟩ := h
  rw [List.mem_filter] at hp
  obtain ⟨hmem, hcond⟩ := hp
  simp only [Bool.and_eq_true, decide_eq_true_eq, Bool.not_eq_true'] at hcond
  exact ⟨hcond.1, p, hmem, hcond.2, rfl⟩

lemma sorted_lt_betLevels (players : List Player) :
    (betLevels players).Sorted (· < ·) := by
  have hs : (betLevels players).Sorted (· ≤ ·) := List.sorted_insertionSort (· ≤ ·) _
  have hn : (betLevels players).Nodup :=
    ((List.perm_insertionSort (· ≤ ·) _).symm).nodup (List.nodup_dedup _)
  exact hs.lt_of_le hn

lemma potsFromLevels_eq_spec (players : List Player) (ls : List Nat) :
    ∀ (prev : Nat),
      List.Pairwise (· < ·) (prev :: ls) →
      (∀ L ∈ ls, ∃ p ∈ players, p.hasFolded = false ∧ p.totalBetThisHand = L) →
      potsFromLevels players prev ls =
        (ls.zip (prev :: ls)).map (fun LP =>
          ⟨(players.map (fun p =>
              min LP.1 p.totalBetThisHand - min LP.2 p.totalBetThisHand)).sum,
           (players.filter (fun p =>
              !p.hasFolded && decide (p.totalBetThisHand ≥ LP.1))).map (·.id)⟩) := by
  induction ls with
  | nil => intro prev _ _; rfl
  | cons L rest ih =>
    intro prev hpw hatt
    have hprevL : prev < L := (List.pairwise_cons.mp hpw).1 L (List.mem_cons_self _ _)
    obtain ⟨q, hq, hqf, hqtb⟩ := hatt L (List.mem_cons_self _ _)
    have hamt : (players.map (fun p =>
        if p.totalBetThisHand > prev then
          min (L - prev) (p.totalBetThisHand - prev) else 0)).sum
        = (players.map (fun p =>
            min L p.totalBetThisHand - min prev p.totalBetThisHand)).sum := by
      apply congrArg
      apply List.map_congr_left
      intro p _
      split <;> omega
    have hel : players.filter (fun p =>
          decide (p.totalBetThisHand > prev) && !p.hasFolded &&
            decide (p.totalBetThisHand ≥ L))
        = players.filter (fun p => !p.hasFolded && decide (p.totalBetThisHand ≥ L)) := by
      apply List.filter_congr
      intro p _
      by_cases hb : L ≤ p.totalBetThisHand
      · have h2 : prev < p.totalBetThisHand := lt_of_lt_of_le hprevL hb
        simp [hb, h2]
      · simp [hb]
    have hqmem : q ∈ players.filter (fun p =>
        !p.hasFolded && decide (p.totalBetThisHand ≥ L)) :=
      List.mem_filter.mpr ⟨hq, by simp [hqf, hqtb]⟩
    have hne : (players.filter (fun p =>
        !p.hasFolded && decide (p.totalBetThisHand ≥ L))).map (·.id) ≠ [] := by
      intro hc
      rw [List.map_eq_nil_iff] at hc
      rw [hc] at hqmem
      exact (List.not_mem_nil q) hqmem
    have hpos : 0 < (players.map (fun p =>
        if p.totalBetThisHand > prev then
          min (L - prev) (p.totalBetThisHand - prev) else 0)).sum := by
      rcases Nat.eq_zero_or_pos ((players.map (fun p =>
        if p.totalBetThisHand > prev then
          min (L - prev) (p.totalBetThisHand - prev) else 0)).sum) with h0 | hpos
      · exfalso
        have hq0 := (List.sum_eq_zero_iff.mp h0)
          ((if q.totalBetThisHand > prev then
              min (L - prev) (q.totalBetThisHand - prev) else 0))
          (List.mem_map_of_mem _ hq)
        rw [hqtb, if_pos hprevL] at hq0
        omega
      · exact hpos
    have hguard : (decide ((players.map (fun p =>
        if p.totalBetThisHand > prev then
          min (L - prev) (p.totalBetThisHand - prev) else 0)).sum > 0) &&
        !((players.filter (fun p =>
            decide (p.totalBetThisHand > prev) && !p.hasFolded &&
              decide (p.totalBetThisHand ≥ L))).map (·.id)).isEmpty) = true := by
      rw [hel]
      simp only [Bool.and_eq_true, decide_eq_true_eq, Bool.not_eq_true',
        List.isEmpty_eq_false]
      exact ⟨hpos, hne⟩
    show (if _ then _ else _) ++ potsFromLevels players L rest = _
    rw [if_pos hguard, hamt, hel, List.zip_cons_cons, List.map_cons,
      List.singleton_append]
    congr 1
    exact ih L (hpw.of_cons) (fun L' h' => hatt L' (List.mem_cons_of_mem _ h'))

lemma calculatePots_general (st : GameState) (hpots : st.pots = [])
    (hlen : (st.players.filter (fun p => !p.hasFolded)).length ≠ 1) :
    calculatePots st = { st with pots := potsFromLevels st.players 0 (betLevels st.players) } := by
  unfold calculatePots
  rw [hpots]
  simp only [List.isEmpty_nil, Bool.not_true, Bool.false_and, if_neg (Bool.false_ne_true)]
  split
  · rename_i winner heq
    exact absurd (by rw [heq]; rfl) hlen
  · rfl

/-- C2: with at least two non-folded players, `_calculate_pots` produces, for
each distinct positive bet level `L` of the non-folded players (ascending,
with predecessor `P`), a pot of amount `Σ over all players
(min(L, contribution) − min(P, contribution))` eligible exactly to the
non-folded players whose total bet is at least `L` — the spec's §4.2
algorithm, here `specPots`. In particular, for committed totals 50/150/150
(all-in 50, all-in 150, and a 200-stack caller of 150), it yields exactly a
main pot of 150 eligible to all three and a side pot of 200 eligible to the
two larger contributors. -/
theorem C2_side_pot_computation (st : GameState) (hpots : st.pots = [])
    (htwo : 2 ≤ (st.players.filter (fun p => !p.hasFolded)).length) :
    (calculatePots st).pots = specPots st.players ∧
    (calculatePots
      { phase := GamePhase.river,
        players :=
          [⟨"p1", 0, 0, false, [], 0, 50, some PlayerAction.allIn⟩,
           ⟨"p2", 0, 1, false, [], 0, 150, some PlayerAction.allIn⟩,
           ⟨"p3", 50, 2, false, [], 0, 150, some PlayerAction.call⟩],
        boardCards := [], pots := [], currentBet := 0, minRaise := 10,
        dealerPosition := 0, actionOn := -1, bigBlind := 10, smallBlind := 5,
        awaitingCardDeal := false, allPlayersAllIn := false }).pots =
      [⟨150, ["p1", "p2", "p3"]⟩, ⟨200, ["p2", "p3"]⟩] := by
  constructor
  · rw [calculatePots_general st hpots (by omega)]
    show potsFromLevels st.players 0 (betLevels st.players) = specPots st.players
    have hpw : List.Pairwise (· < ·) (0 :: betLevels st.players) := by
      rw [List.pairwise_cons]
      exact ⟨fun b hb => (mem_betLevels hb).1, sorted_lt_betLevels st.players⟩
    exact potsFromLevels_eq_spec st.players (betLevels st.players) 0 hpw
      (fun L hL => (mem_betLevels hL).2)
  · decide

/-- Witness for C2 at the concrete 50/150/150 all-in state. -/
theorem C2_side_pot_computation_witness :
    (({ phase := GamePhase.river,
        players :=
          [⟨"p1", 0, 0, false, [], 0, 50, some PlayerAction.allIn⟩,
           ⟨"p2", 0, 1, false, [], 0, 150, some PlayerAction.allIn⟩,
           ⟨"p3", 50, 2, false, [], 0, 150, some PlayerAction.call⟩],
        boardCards := [], pots := [], currentBet := 0, minRaise := 10,
        dealerPosition := 0, actionOn := -1, bigBlind := 10, smallBlind := 5,
        awaitingCardDeal := false, allPlayersAllIn := false } : GameState)).pots = [] ∧
    (calculatePots
      { phase := GamePhase.river,
        players :=
          [⟨"p1", 0, 0, false, [], 0, 50, some PlayerAction.allIn⟩,
           ⟨"p2", 0, 1, false, [], 0, 150, some PlayerAction.allIn⟩,
           ⟨"p3", 50, 2, false, [], 0, 150, some PlayerAction.call⟩],
        boardCards := [], pots := [], currentBet := 0, minRaise := 10,
        dealerPosition := 0, actionOn := -1, bigBlind := 10, smallBlind := 5,
        awaitingCardDeal := false, allPlayersAllIn := false }).pots =
      specPots
        [⟨"p1", 0, 0, false, [], 0, 50, some PlayerAction.allIn⟩,
         ⟨"p2", 0, 1, false, [], 0, 150, some PlayerAction.allIn⟩,
         ⟨"p3", 50, 2, false, [], 0, 150, some PlayerAction.call⟩] :=
  ⟨rfl,
    (C2_side_pot_computation
      { phase := GamePhase.river,
        players :=
          [⟨"p1", 0, 0, false, [], 0, 50, some PlayerAction.allIn⟩,
           ⟨"p2", 0, 1, false, [], 0, 150, some PlayerAction.allIn⟩,
           ⟨"p3", 50, 2, false, [], 0, 150, some PlayerAction.call⟩],
        boardCards := [], pots := [], currentBet := 0, minRaise := 10,
        dealerPosition := 0, actionOn := -1, bigBlind := 10, smallBlind := 5,
        awaitingCardDeal := false, allPlayersAllIn := false } rfl (by decide)).1⟩

lemma maxCalled_eq_foldedMax (players : List Player) : ∀ a : Nat,
    ((players.filter (fun p =>
        p.hasFolded && decide (p.totalBetThisHand > 0))).map (·.totalBetThisHand)).foldl max a
      = ((players.filter (·.hasFolded)).map (·.totalBetThisHand)).foldl max a := by
  induction players with
  | nil => intro a; rfl
  | cons p t ih =>
    intro a
    by_cases hf : p.hasFolded = true
    · by_cases htb : p.totalBetThisHand > 0
      · simp [List.filter_cons, hf, htb, ih]
      · have h0 : p.totalBetThisHand = 0 := by omega
        simp [List.filter_cons, hf, h0, ih]
    · simp only [Bool.not_eq_true] at hf
      simp [List.filter_cons, hf, ih]

/-- C3: when exactly one player `w` remains un-folded and some folded player
contributed chips, `_calculate_pots` skips the general side-pot algorithm:
the single pot holds only the called amounts `min(contribution, M)` (with `M`
the maximum folded contribution), is eligible only to `w`, and the uncalled
excess `w.totalBetThisHand − M` is credited to `w`'s stack immediately. -/
theorem C3_uncalled_bet_return (st : GameState) (w : Player)
    (hpots : st.pots = [])
    (hone : st.players.filter (fun p => !p.hasFolded) = [w])
    (hfolded : ∃ p ∈ st.players, p.hasFolded = true ∧ 0 < p.totalBetThisHand) :
    (calculatePots st).pots =
      [⟨(st.players.map (fun p =>
          min p.totalBetThisHand
            (((st.players.filter (·.hasFolded)).map (·.totalBetThisHand)).foldl max 0))).sum,
        [w.id]⟩] ∧
    (calculatePots st).players = st.players.map (fun p =>
      if p.id = w.id then
        { p with stack := p.stack +
            (w.totalBetThisHand -
              ((st.players.filter (·.hasFolded)).map (·.totalBetThisHand)).foldl max 0) }
      else p) := by
  obtain ⟨q, hq, hqf, hqtb⟩ := hfolded
  have hqfil : q ∈ st.players.filter (fun p =>
      p.hasFolded && decide (p.totalBetThisHand > 0)) :=
    List.mem_filter.mpr ⟨hq, by simp [hqf, hqtb]⟩
  have hfb : ((st.players.filter (fun p =>
      p.hasFolded && decide (p.totalBetThisHand > 0))).map (·.totalBetThisHand)).isEmpty
      = false := by
    rw [List.isEmpty_eq_false]
    intro hc
    rw [List.map_eq_nil_iff] at hc
    rw [hc] at hqfil
    exact (List.not_mem_nil q) hqfil
  unfold calculatePots
  rw [hpots]
  simp only [List.isEmpty_nil, Bool.not_true, Bool.false_and, Bool.false_eq_true,
    if_neg, ite_false]
  rw [hone]
  show ((if _ then _ else _ : GameState).pots = _) ∧
    ((if _ then _ else _ : GameState).players = _)
  rw [if_pos (by rw [hfb]; rfl)]
  rw [maxCalled_eq_foldedMax]
  refine ⟨rfl, ?_⟩
  dsimp only
  by_cases hu : w.totalBetThisHand -
      ((st.players.filter (·.hasFolded)).map (·.totalBetThisHand)).foldl max 0 > 0
  · rw [if_pos hu]
  · rw [if_neg hu]
    have hz : w.totalBetThisHand -
        ((st.players.filter (·.hasFolded)).map (·.totalBetThisHand)).foldl max 0 = 0 := by
      omega
    rw [hz]
    symm
    apply List.map_id''
    intro p
    by_cases hpw : p.id = w.id
    · rw [if_pos hpw]
      simp
    · rw [if_neg hpw]

/-- Witness for C3 at `foldOutState`. -/
theorem C3_uncalled_bet_return_witness :
    foldOutState.pots = [] ∧
    foldOutState.players.filter (fun p => !p.hasFolded) = [foldOutWinner] ∧
    (∃ p ∈ foldOutState.players, p.hasFolded = true ∧ 0 < p.totalBetThisHand) ∧
    ((calculatePots foldOutState).pots =
      [⟨(foldOutState.players.map (fun p =>
          min p.totalBetThisHand
            (((foldOutState.players.filter (·.hasFolded)).map
                (·.totalBetThisHand)).foldl max 0))).sum,
        [foldOutWinner.id]⟩] ∧
    (calculatePots foldOutState).players = foldOutState.players.map (fun p =>
      if p.id = foldOutWinner.id then
        { p with stack := p.stack +
            (foldOutWinner.totalBetThisHand -
              ((foldOutState.players.filter (·.hasFolded)).map
                (·.totalBetThisHand)).foldl max 0) }
      else p)) :=
  ⟨rfl, by decide,
    ⟨⟨"f1", 0, 1, true, [], 0, 150, some PlayerAction.fold⟩, by decide⟩,
    C3_uncalled_bet_return foldOutState foldOutWinner rfl (by decide)
      ⟨⟨"f1", 0, 1, true, [], 0, 150, some PlayerAction.fold⟩, by decide⟩⟩

/-! ## Showdown split-pot arithmetic (`_resolve_showdown`) -/

lemma splitAwards_aux_sum (q r : Nat) (l : List String) :
    ∀ n : Nat, n ≠ 0 →
      ((l.enumFrom n).map (fun jw : Nat × String =>
        q + if jw.1 = 0 then r else 0)).sum = l.length * q := by
  induction l with
  | nil => intro n _; simp
  | cons x t ih =>
    intro n hn
    rw [List.enumFrom_cons, List.map_cons, List.sum_cons, if_neg hn,
      ih (n + 1) (Nat.succ_ne_zero n)]
    rw [List.length_cons, Nat.succ_mul]
    omega

lemma splitAwards_aux_mem (q r : Nat) (l : List String) :
    ∀ n : Nat, n ≠ 0 →
      ∀ x ∈ (l.enumFrom n).map (fun jw : Nat × String =>
        (jw.2, q + if jw.1 = 0 then r else 0)), x.2 = q := by
  induction l with
  | nil => intro n _ x hx; exact absurd hx (List.not_mem_nil x)
  | cons y t ih =>
    intro n hn x hx
    rw [List.enumFrom_cons, List.map_cons, List.mem_cons] at hx
    rcases hx with hx | hx
    · rw [hx, if_neg hn]
      omega
    · exact ih (n + 1) (Nat.succ_ne_zero n) x hx

/-- C10: a pot of `amount` split among a non-empty winner list is credited
exactly: the members' awards sum to `amount`, the first winner gets
`amount / k + amount % k` and every other winner gets `amount / k`
(`k` the number of winners), so split pots neither create nor destroy
chips. -/
theorem C10_split_pot_exact (amount : Nat) (w : String) (ws : List String) :
    ((splitAwards amount (w :: ws)).map (·.2)).sum = amount ∧
    (splitAwards amount (w :: ws)).head? =
      some (w, amount / (w :: ws).length + amount % (w :: ws).length) ∧
    ∀ x ∈ (splitAwards amount (w :: ws)).tail, x.2 = amount / (w :: ws).length := by
  have hk : (w :: ws).length = ws.length + 1 := List.length_cons w ws
  have hdm := Nat.div_add_mod amount (ws.length + 1)
  refine ⟨?_, ?_, ?_⟩
  · rw [splitAwards, List.enum_cons, List.map_cons, List.map_cons, List.sum_cons]
    rw [List.map_map]
    have hsum := splitAwards_aux_sum (amount / (w :: ws).length)
      (amount % (w :: ws).length) ws 1 one_ne_zero
    have hmapeq : ((ws.enumFrom 1).map ((fun x : String × Nat => x.2) ∘
        (fun jw : Nat × String =>
          (jw.2, amount / (w :: ws).length +
            if jw.1 = 0 then amount % (w :: ws).length else 0)))).sum
        = ws.length * (amount / (w :: ws).length) := by
      rw [← hsum]
      congr 1
    rw [hmapeq, if_pos (rfl : (0 : Nat) = 0), hk]
    rw [Nat.add_mul, Nat.one_mul] at hdm
    set q := amount / (ws.length + 1)
    set r := amount % (ws.length + 1)
    linarith
  · rw [splitAwards, List.enum_cons, List.map_cons]
    simp
  · intro x hx
    rw [splitAwards, List.enum_cons, List.map_cons, List.tail_cons] at hx
    exact splitAwards_aux_mem (amount / (w :: ws).length)
      (amount % (w :: ws).length) ws 1 one_ne_zero x hx

/-- Witness for C10: a 100-chip pot split three ways awards 34/33/33. -/
theorem C10_split_pot_exact_witness :
    ((splitAwards 100 ["a", "b", "c"]).map (·.2)).sum = 100 ∧
    (splitAwards 100 ["a", "b", "c"]).head? =
      some ("a", 100 / (["a", "b", "c"] : List String).length +
        100 % (["a", "b", "c"] : List String).length) ∧
    ∀ x ∈ (splitAwards 100 ["a", "b", "c"]).tail,
      x.2 = 100 / (["a", "b", "c"] : List String).length :=
  C10_split_pot_exact 100 "a" ["b", "c"]

/-! ## Order lemmas for the evaluator comparison -/

lemma listLt_irrefl : ∀ l : List Nat, listLt l l = false := by
  intro l
  induction l with
  | nil => rfl
  | cons a t ih => simp [listLt, ih]

lemma listLt_asymm : ∀ a b : List Nat, listLt a b = true → listLt b a = false := by
  intro a
  induction a with
  | nil =>
    intro b h
    cases b with
    | nil => rfl
    | cons y ys => rfl
  | cons x xs ih =>
    intro b h
    cases b with
    | nil => exact absurd h (by rw [listLt]; exact Bool.false_ne_true)
    | cons y ys =>
      rw [listLt] at h ⊢
      by_cases h1 : x < y
      · have h2 : ¬ y < x := by omega
        rw [if_neg h2, if_pos h1]
      · by_cases h2 : y < x
        · rw [if_neg h1, if_pos h2] at h
          exact absurd h Bool.false_ne_true
        · rw [if_neg h1, if_neg h2] at h
          rw [if_neg h2, if_neg h1]
          exact ih ys h

lemma listLt_trans : ∀ a b c : List Nat,
    listLt a b = true → listLt b c = true → listLt a c = true := by
  intro a
  induction a with
  | nil =>
    intro b c h1 h2
    cases b with
    | nil => exact h2
    | cons y ys =>
      cases c with
      | nil => exact absurd h2 (by rw [listLt]; exact Bool.false_ne_true)
      | cons z zs => rfl
  | cons x xs ih =>
    intro b c h1 h2
    cases b with
    | nil => exact absurd h1 (by rw [listLt]; exact Bool.false_ne_true)
    | cons y ys =>
      cases c with
      | nil => exact absurd h2 (by rw [listLt]; exact Bool.false_ne_true)
      | cons z zs =>
        rw [listLt] at h1 h2 ⊢
        by_cases hxy : x < y
        · by_cases hyz : y < z
          · rw [if_pos (by omega : x < z)]
          · by_cases hzy : z < y
            · rw [if_neg hyz, if_pos hzy] at h2
              exact absurd h2 Bool.false_ne_true
            · have : y = z := by omega
              subst this
              rw [if_pos hxy]
        · by_cases hyx : y < x
          · rw [if_neg hxy, if_pos hyx] at h1
            exact absurd h1 Bool.false_ne_true
          · have hxy2 : x = y := by omega
            subst hxy2
            rw [if_neg hxy, if_neg hxy] at h1
            by_cases hyz : x < z
            · rw [if_pos hyz]
            · by_cases hzy : z < x
              · rw [if_neg hyz, if_pos hzy] at h2
                exact absurd h2 Bool.false_ne_true
              · rw [if_neg hyz, if_neg hzy] at h2 ⊢
                exact ih ys zs h1 h2

lemma listLt_antisymm : ∀ a b : List Nat,
    listLt a b = false → listLt b a = false → a = b := by
  intro a
  induction a with
  | nil =>
    intro b h1 _
    cases b with
    | nil => rfl
    | cons y ys => exact absurd h1 (by rw [listLt]; simp)
  | cons x xs ih =>
    intro b h1 h2
    cases b with
    | nil => exact absurd h2 (by rw [listLt]; simp)
    | cons y ys =>
      rw [listLt] at h1 h2
      by_cases hxy : x < y
      · rw [if_pos hxy] at h1
        exact Bool.noConfusion h1
      · by_cases hyx : y < x
        · rw [if_pos hyx] at h2
          exact Bool.noConfusion h2
        · have hx : x = y := by omega
          subst hx
          rw [if_neg hxy, if_neg hxy] at h1 h2
          rw [ih ys h1 h2]

lemma maxK_comm (a b : List Nat) : maxK a b = maxK b a := by
  unfold maxK
  by_cases h1 : listLt a b = true
  · rw [if_pos h1, if_neg (by rw [listLt_asymm a b h1]; exact Bool.false_ne_true)]
  · by_cases h2 : listLt b a = true
    · rw [if_neg h1, if_pos h2]
    · rw [if_neg h1, if_neg h2]
      exact listLt_antisymm a b (Bool.not_eq_true _ ▸ h1) (Bool.not_eq_true _ ▸ h2)

lemma maxK_rightcomm (a x y : List Nat) : maxK (maxK a x) y = maxK (maxK a y) x := by
  unfold maxK
  by_cases hax : listLt a x = true
  · rw [if_pos hax]
    by_cases hay : listLt a y = true
    · rw [if_pos hay]
      by_cases hxy : listLt x y = true
      · rw [if_pos hxy,
          if_neg (by rw [listLt_asymm x y hxy]; exact Bool.false_ne_true)]
      · by_cases hyx : listLt y x = true
        · rw [if_neg hxy, if_pos hyx]
        · rw [if_neg hxy, if_neg hyx]
          exact listLt_antisymm x y (Bool.not_eq_true _ ▸ hxy) (Bool.not_eq_true _ ▸ hyx)
    · rw [if_neg hay, if_pos hax]
      by_cases hxy : listLt x y = true
      · exact absurd (listLt_trans a x y hax hxy) hay
      · rw [if_neg hxy]
  · rw [if_neg hax]
    by_cases hay : listLt a y = true
    · rw [if_pos hay]
      by_cases hyx : listLt y x = true
      · exact absurd (listLt_trans a y x hay hyx) hax
      · rw [if_neg hyx]
    · rw [if_neg hay, if_neg hax]

lemma lt_eq_listLt (a b : HandEvaluation) :
    a.lt b = listLt (keyOf a) (keyOf b) := by
  unfold HandEvaluation.lt keyOf
  rw [listLt]
  by_cases h : a.rank = b.rank
  · rw [if_neg (by simp [h]), if_neg (by omega), if_neg (by omega)]
  · by_cases h2 : a.rank < b.rank
    · rw [if_pos (by simp [h]), if_pos h2]
      simp [h2]
    · have h3 : b.rank < a.rank := by omega
      rw [if_pos (by simp [h]), if_neg h2, if_pos h3]
      simp [h2]

/-! ## Permutation invariance of the five-card evaluator -/

lemma sortCardsDesc_perm (l : List Card) : (sortCardsDesc l).Perm l :=
  List.perm_insertionSort _ l

lemma sortCardsDesc_sorted (l : List Card) :
    (sortCardsDesc l).Sorted (fun a b => b.rank ≤ a.rank) := by
  haveI : IsTotal Card (fun a b => b.rank ≤ a.rank) := ⟨fun a b => le_total b.rank a.rank⟩
  haveI : IsTrans Card (fun a b => b.rank ≤ a.rank) :=
    ⟨fun _ _ _ h1 h2 => le_trans h2 h1⟩
  exact List.sorted_insertionSort _ l

lemma map_rank_sortCardsDesc {l₁ l₂ : List Card} (h : l₁.Perm l₂) :
    (sortCardsDesc l₁).map (·.rank) = (sortCardsDesc l₂).map (·.rank) := by
  haveI : IsAntisymm Nat (fun a b => b ≤ a) := ⟨fun a b h1 h2 => Nat.le_antisymm h2 h1⟩
  have hp : ((sortCardsDesc l₁).map (·.rank)).Perm ((sortCardsDesc l₂).map (·.rank)) :=
    ((sortCardsDesc_perm l₁).map _).trans
      ((h.map _).trans ((sortCardsDesc_perm l₂).map _).symm)
  have hs1 : ((sortCardsDesc l₁).map (·.rank)).Sorted (fun a b : Nat => b ≤ a) :=
    List.Pairwise.map _ (fun _ _ hab => hab) (sortCardsDesc_sorted l₁)
  have hs2 : ((sortCardsDesc l₂).map (·.rank)).Sorted (fun a b : Nat => b ≤ a) :=
    List.Pairwise.map _ (fun _ _ hab => hab) (sortCardsDesc_sorted l₂)
  exact List.eq_of_perm_of_sorted hp hs1 hs2

lemma map_suit_sortCardsDesc_perm {l₁ l₂ : List Card} (h : l₁.Perm l₂) :
    ((sortCardsDesc l₁).map (·.suit)).Perm ((sortCardsDesc l₂).map (·.suit)) :=
  ((sortCardsDesc_perm l₁).map _).trans ((h.map _).trans ((sortCardsDesc_perm l₂).map _).symm)

set_option maxHeartbeats 2000000 in
lemma evalSorted_congr {c₁ c₂ : List Card}
    (hr : c₁.map (·.rank) = c₂.map (·.rank))
    (hs : (c₁.map (·.suit)).dedup.length = (c₂.map (·.suit)).dedup.length) :
    (evalSorted c₁).rank = (evalSorted c₂).rank ∧
    (evalSorted c₁).value = (evalSorted c₂).value := by
  simp only [evalSorted]
  rw [hr, hs]
  constructor <;> (split_ifs <;> rfl)


/-- Permutation invariance of `evaluate_five_cards` on rank and tie-break
value (the `cards` field records the sort order and is not part of the
comparison or equality of evaluations). -/
lemma evaluateFiveCards_perm {l₁ l₂ : List Card} (h : l₁.Perm l₂) :
    (evaluateFiveCards l₁).rank = (evaluateFiveCards l₂).rank ∧
    (evaluateFiveCards l₁).value = (evaluateFiveCards l₂).value := by
  unfold evaluateFiveCards
  exact evalSorted_congr (map_rank_sortCardsDesc h)
    ((map_suit_sortCardsDesc_perm h).dedup.length_eq)

lemma keyOf_evaluateFiveCards_perm {l₁ l₂ : List Card} (h : l₁.Perm l₂) :
    keyOf (evaluateFiveCards l₁) = keyOf (evaluateFiveCards l₂) := by
  obtain ⟨h1, h2⟩ := evaluateFiveCards_perm h
  unfold keyOf
  rw [h1, h2]

/-! ## Permutation invariance of the seven-card evaluator -/

lemma foldl_betterOf_some (l : List HandEvaluation) : ∀ b : HandEvaluation,
    Option.map keyOf (l.foldl betterOf (some b)) =
      some (l.foldl (fun acc e => maxK acc (keyOf e)) (keyOf b)) := by
  induction l with
  | nil => intro b; rfl
  | cons e t ih =>
    intro b
    rw [List.foldl_cons, List.foldl_cons]
    have hb : betterOf (some b) e = some (if b.lt e = true then e else b) := by
      show (if b.lt e = true then some e else some b) = _
      by_cases h : b.lt e = true
      · rw [if_pos h, if_pos h]
      · rw [if_neg h, if_neg h]
    rw [hb, ih]
    congr 1
    by_cases h : b.lt e = true
    · rw [if_pos h]
      unfold maxK
      rw [if_pos (by rw [← lt_eq_listLt]; exact h)]
    · rw [if_neg h]
      unfold maxK
      rw [if_neg (by rw [← lt_eq_listLt]; exact h)]

lemma bestKey_perm {K₁ K₂ : List (List Nat)} (h : K₁.Perm K₂) :
    bestKey K₁ = bestKey K₂ := by
  unfold bestKey
  apply h.foldl_eq'
  intro x _ y _ z
  cases z with
  | none => show some (maxK x y) = some (maxK y x); rw [maxK_comm]
  | some m => show some (maxK (maxK m x) y) = some (maxK (maxK m y) x); rw [maxK_rightcomm]

lemma foldl_optMax_some (ks : List (List Nat)) : ∀ m : List Nat,
    ks.foldl (fun acc k =>
      match acc with
      | none => some k
      | some m => some (maxK m k)) (some m) = some (ks.foldl maxK m) := by
  induction ks with
  | nil => intro m; rfl
  | cons k t ih => intro m; rw [List.foldl_cons, List.foldl_cons]; exact ih _

lemma map_keyOf_evaluateHand (h c : List Card) :
    Option.map keyOf (evaluateHand h c) =
      bestKey (((h ++ c).sublistsLen 5).map (fun s => keyOf (evaluateFiveCards s))) := by
  unfold evaluateHand bestKey
  cases hS : (h ++ c).sublistsLen 5 with
  | nil => rfl
  | cons s t =>
    rw [List.map_cons, List.foldl_cons, List.map_cons, List.foldl_cons]
    show Option.map keyOf
        ((t.map evaluateFiveCards).foldl betterOf (some (evaluateFiveCards s))) = _
    rw [foldl_betterOf_some, foldl_optMax_some, List.foldl_map, List.foldl_map]

lemma evalKeyM_coe (s : List Card) :
    evalKeyM (s : Multiset Card) = keyOf (evaluateFiveCards s) := by
  apply keyOf_evaluateFiveCards_perm
  exact Multiset.coe_eq_coe.mp
    (Multiset.sort_eq (fun a b => cardCode a ≤ cardCode b) (s : Multiset Card))

lemma evaluateHand_perm {h₁ c₁ h₂ c₂ : List Card}
    (hp : (h₁ ++ c₁).Perm (h₂ ++ c₂)) :
    Option.map keyOf (evaluateHand h₁ c₁) = Option.map keyOf (evaluateHand h₂ c₂) := by
  rw [map_keyOf_evaluateHand, map_keyOf_evaluateHand]
  apply bestKey_perm
  have h5 : (Multiset.powersetCardAux 5 (h₁ ++ c₁)).Perm
      (Multiset.powersetCardAux 5 (h₂ ++ c₂)) :=
    Multiset.powersetCardAux_perm hp
  rw [Multiset.powersetCardAux_eq_map_coe, Multiset.powersetCardAux_eq_map_coe] at h5
  have e₁ : ((h₁ ++ c₁).sublistsLen 5).map (fun s => keyOf (evaluateFiveCards s)) =
      (((h₁ ++ c₁).sublistsLen 5).map ((↑·) : List Card → Multiset Card)).map evalKeyM := by
    rw [List.map_map]
    exact List.map_congr_left fun a _ => (evalKeyM_coe a).symm
  have e₂ : ((h₂ ++ c₂).sublistsLen 5).map (fun s => keyOf (evaluateFiveCards s)) =
      (((h₂ ++ c₂).sublistsLen 5).map ((↑·) : List Card → Multiset Card)).map evalKeyM := by
    rw [List.map_map]
    exact List.map_congr_left fun a _ => (evalKeyM_coe a).symm
  rw [e₁, e₂]
  exact h5.map evalKeyM

set_option maxHeartbeats 2000000 in
lemma evalSorted_rank_bounds (cards : List Card) :
    1 ≤ (evalSorted cards).rank ∧ (evalSorted cards).rank ≤ 10 := by
  simp only [evalSorted]
  split_ifs <;> simp

/-- C7: the evaluator is total — every five-card hand receives exactly one of
the ten category ranks (1–10) — and permutation invariant: reordering the
five cards, or the seven hole-plus-community cards fed to `evaluate_hand`,
cannot change the category rank or tie-break value of the result. -/
theorem C7_evaluator_totality_perm_invariance
    (cards₅ : List Card) (_hlen : cards₅.length = 5) (_hnd : cards₅.Nodup)
    (l₁ l₂ : List Card) (hp5 : l₁.Perm l₂)
    (h₁ c₁ h₂ c₂ : List Card) (hp7 : (h₁ ++ c₁).Perm (h₂ ++ c₂)) :
    (1 ≤ (evaluateFiveCards cards₅).rank ∧ (evaluateFiveCards cards₅).rank ≤ 10) ∧
    ((evaluateFiveCards l₁).rank = (evaluateFiveCards l₂).rank ∧
      (evaluateFiveCards l₁).value = (evaluateFiveCards l₂).value) ∧
    Option.map (fun e => (e.rank, e.value)) (evaluateHand h₁ c₁) =
      Option.map (fun e => (e.rank, e.value)) (evaluateHand h₂ c₂) := by
  refine ⟨evalSorted_rank_bounds _, evaluateFiveCards_perm hp5, ?_⟩
  have hk := evaluateHand_perm hp7
  cases ha : evaluateHand h₁ c₁ with
  | none =>
    cases hb : evaluateHand h₂ c₂ with
    | none => rfl
    | some eb => rw [ha, hb] at hk; exact absurd hk (by simp [Option.map])
  | some ea =>
    cases hb : evaluateHand h₂ c₂ with
    | none => rw [ha, hb] at hk; exact absurd hk (by simp [Option.map])
    | some eb =>
      rw [ha, hb] at hk
      simp only [Option.map_some'] at hk ⊢
      have hkk : keyOf ea = keyOf eb := Option.some.inj hk
      unfold keyOf at hkk
      obtain ⟨h1, h2⟩ := List.cons.inj hkk
      rw [h1, h2]

/-- Witness for C7: the wheel hand (5 distinct cards), a reordering of it,
and a reordering of the royal-flush seven-card input. -/
theorem C7_evaluator_totality_perm_invariance_witness :
    (wheelHand.length = 5 ∧ wheelHand.Nodup ∧
      ([⟨2, 1⟩, ⟨5, 0⟩, ⟨14, 0⟩, ⟨3, 2⟩, ⟨4, 3⟩] : List Card).Perm wheelHand ∧
      (([⟨14, 0⟩, ⟨13, 0⟩] ++ [⟨12, 0⟩, ⟨11, 0⟩, ⟨10, 0⟩, ⟨2, 1⟩, ⟨3, 2⟩] :
          List Card)).Perm
        ([⟨3, 2⟩, ⟨10, 0⟩] ++ [⟨11, 0⟩, ⟨2, 1⟩, ⟨14, 0⟩, ⟨13, 0⟩, ⟨12, 0⟩])) ∧
    ((1 ≤ (evaluateFiveCards wheelHand).rank ∧ (evaluateFiveCards wheelHand).rank ≤ 10) ∧
    ((evaluateFiveCards [⟨2, 1⟩, ⟨5, 0⟩, ⟨14, 0⟩, ⟨3, 2⟩, ⟨4, 3⟩]).rank =
        (evaluateFiveCards wheelHand).rank ∧
      (evaluateFiveCards [⟨2, 1⟩, ⟨5, 0⟩, ⟨14, 0⟩, ⟨3, 2⟩, ⟨4, 3⟩]).value =
        (evaluateFiveCards wheelHand).value) ∧
    Option.map (fun e => (e.rank, e.value))
        (evaluateHand [⟨14, 0⟩, ⟨13, 0⟩] [⟨12, 0⟩, ⟨11, 0⟩, ⟨10, 0⟩, ⟨2, 1⟩, ⟨3, 2⟩]) =
      Option.map (fun e => (e.rank, e.value))
        (evaluateHand [⟨3, 2⟩, ⟨10, 0⟩] [⟨11, 0⟩, ⟨2, 1⟩, ⟨14, 0⟩, ⟨13, 0⟩, ⟨12, 0⟩])) :=
  ⟨⟨by decide, by decide, by decide, by decide⟩,
    C7_evaluator_totality_perm_invariance wheelHand (by decide) (by decide)
      [⟨2, 1⟩, ⟨5, 0⟩, ⟨14, 0⟩, ⟨3, 2⟩, ⟨4, 3⟩] wheelHand (by decide)
      [⟨14, 0⟩, ⟨13, 0⟩] [⟨12, 0⟩, ⟨11, 0⟩, ⟨10, 0⟩, ⟨2, 1⟩, ⟨3, 2⟩]
      [⟨3, 2⟩, ⟨10, 0⟩] [⟨11, 0⟩, ⟨2, 1⟩, ⟨14, 0⟩, ⟨13, 0⟩, ⟨12, 0⟩] (by decide)⟩

/-- C8: the wheel A-2-3-4-5 (mixed suits) evaluates to the Straight category
(rank 5) with tie-break high card 5, and compares strictly below the 6-high
straight 2-3-4-5-6 under `HandEvaluation.__lt__`. -/
theorem C8_wheel_straight :
    (evaluateFiveCards wheelHand).rank = 5 ∧
    (evaluateFiveCards wheelHand).value = [5] ∧
    (evaluateFiveCards wheelHand).lt (evaluateFiveCards sixHighHand) = true := by
  decide

/-! ## C4: raise semantics -/

/-- C4 counterexample: in `shortStackRaiseState` hero (stack 30) raises by
the legal minimum 100 while facing a bet of 100 — funding the raise would
take 200. The claim requires rejection; the code accepts the action, hero
commits the 30-chip stack, and the table `currentBet` *drops* from 100 to 30
(also refuting `currentBet = player.currentBet + raiseAmount = 100`). -/
theorem C4_raise_underfunded_accepted :
    shortStackRaiseState.minRaise = 100 ∧
    shortStackRaiseState.currentBet = 100 ∧
    getPlayerById shortStackRaiseState "hero" = some ⟨"hero", 30, 0, false, [], 0, 0, none⟩ ∧
    (doProcessAction shortStackRaiseState "hero" PlayerAction.raiseBet 100).toOption.map
        (fun x => (x.2.success, x.1.currentBet, x.1.minRaise,
          (x.1.players.headD dummyPlayer).stack,
          (x.1.players.headD dummyPlayer).currentBet)) =
      some (true, 30, 100, 0, 30) := by
  refine ⟨rfl, rfl, rfl, ?_⟩
  decide

/-- C4 (amended): a raise is rejected iff `raiseAmount < minRaise`; there is
no funding check. When accepted, `minRaise` becomes `max(minRaise,
raiseAmount)` and the table `currentBet` becomes the player's resulting
round bet `player.currentBet + min(currentBet + raiseAmount −
player.currentBet, stack)` — which equals `currentBet + raiseAmount` when
the player can fund it, and is smaller (the whole stack goes in) when they
cannot. -/
theorem C4_raise_semantics (st : GameState) (player : Player) (amount : Nat) :
    (amount < st.minRaise →
      applyAction st player PlayerAction.raiseBet amount =
        Sum.inl "Minimum raise not met") ∧
    (st.minRaise ≤ amount →
      ∃ stNew, applyAction st player PlayerAction.raiseBet amount = Sum.inr stNew ∧
        stNew.minRaise = max amount st.minRaise ∧
        stNew.currentBet = player.currentBet +
          min (st.currentBet + amount - player.currentBet) player.stack ∧
        (player.currentBet ≤ st.currentBet →
          st.currentBet + amount - player.currentBet ≤ player.stack →
          stNew.currentBet = st.currentBet + amount)) := by
  constructor
  · intro h
    show (if amount < st.minRaise then _ else _) = _
    rw [if_pos h]
  · intro h
    have hn : ¬ amount < st.minRaise := by omega
    have heq : applyAction st player PlayerAction.raiseBet amount =
        Sum.inr
          (let pb := placeBet player (min (st.currentBet + amount - player.currentBet) player.stack);
           let pNew : Player := { pb with lastAction := some PlayerAction.raiseBet };
           let stNew := setPlayer st pNew;
           { stNew with currentBet := pNew.currentBet, minRaise := max amount st.minRaise }) := by
      show (if amount < st.minRaise then _ else _) = _
      rw [if_neg hn]
    refine ⟨_, heq, ?_, ?_, ?_⟩
    · rfl
    · show (placeBet player
          (min (st.currentBet + amount - player.currentBet) player.stack)).currentBet = _
      simp only [placeBet]
      omega
    · intro h1 h2
      show (placeBet player
          (min (st.currentBet + amount - player.currentBet) player.stack)).currentBet = _
      simp only [placeBet]
      omega

/-- Witness for C4 at `shortStackRaiseState`: the rejection branch at
raise amount 50 (< minRaise 100) and the acceptance branch at 100. -/
theorem C4_raise_semantics_witness :
    (50 < shortStackRaiseState.minRaise ∧
      applyAction shortStackRaiseState ⟨"hero", 30, 0, false, [], 0, 0, none⟩
        PlayerAction.raiseBet 50 = Sum.inl "Minimum raise not met") ∧
    (shortStackRaiseState.minRaise ≤ 100 ∧
      ∃ stNew, applyAction shortStackRaiseState ⟨"hero", 30, 0, false, [], 0, 0, none⟩
          PlayerAction.raiseBet 100 = Sum.inr stNew ∧
        stNew.minRaise = max 100 shortStackRaiseState.minRaise ∧
        stNew.currentBet = 0 +
          min (shortStackRaiseState.currentBet + 100 - 0) 30 ∧
        (0 ≤ shortStackRaiseState.currentBet →
          shortStackRaiseState.currentBet + 100 - 0 ≤ 30 →
          stNew.currentBet = shortStackRaiseState.currentBet + 100)) :=
  ⟨⟨by decide,
    (C4_raise_semantics shortStackRaiseState
      ⟨"hero", 30, 0, false, [], 0, 0, none⟩ 50).1 (by decide)⟩,
   ⟨by decide,
    (C4_raise_semantics shortStackRaiseState
      ⟨"hero", 30, 0, false, [], 0, 0, none⟩ 100).2 (by decide)⟩⟩

/-! ## C9: call normalization -/

/-- C9 counterexample: in `shortStackCallState` hero's call commits the
entire 40-chip stack, yet the recorded action is `Call`, not `All-In` — the
source only logs a warning at the `call_amount == player.stack` check. -/
theorem C9_call_not_normalized :
    getPlayerById shortStackCallState "hero" = some ⟨"hero", 40, 0, false, [], 0, 0, none⟩ ∧
    (doProcessAction shortStackCallState "hero" PlayerAction.call 0).toOption.map
        (fun x => ((x.1.players.headD dummyPlayer).lastAction,
          (x.1.players.headD dummyPlayer).stack,
          (x.1.players.headD dummyPlayer).currentBet,
          x.2.success)) =
      some (some PlayerAction.call, 0, 40, true) := by
  refine ⟨rfl, ?_⟩
  decide

/-- C9 (amended): a call commits `min(currentBet − player.currentBet,
stack)`; when that amount is the player's entire stack the action is *not*
normalized — the recorded `lastAction` stays `Call` (the source logs a
warning only). -/
theorem C9_call_semantics (st : GameState) (player : Player) (amount : Nat) :
    ∃ pNew, applyAction st player PlayerAction.call amount = Sum.inr (setPlayer st pNew) ∧
      pNew.currentBet = player.currentBet +
        min (st.currentBet - player.currentBet) player.stack ∧
      pNew.stack = player.stack - min (st.currentBet - player.currentBet) player.stack ∧
      pNew.totalBetThisHand = player.totalBetThisHand +
        min (st.currentBet - player.currentBet) player.stack ∧
      pNew.lastAction = some PlayerAction.call := by
  refine ⟨_, rfl, ?_, ?_, ?_, rfl⟩ <;> (simp only [placeBet]; omega)

/-! ## C1: chip conservation -/

/-- C1: chip conservation fails on the code. In `chipLossState` (reachable:
hero raised to 200 pre-flop, both opponents went all-in for 150, hero
checked down and the board was dealt out), hero folds on the river. The fold
triggers showdown inside the same `processAction` call; `_calculate_pots`
collects only `min(150, contribution)` from every player, so hero's 50
uncalled chips enter no pot, and `_resolve_showdown` then zeroes all
`total_bet_this_hand`: the conserved quantity `sum(stack) +
sum(totalBetThisHand)` drops from the configured 1300 to 1250 across a
single successful `processAction` call; the code's own post-action
validation attaches the chip-integrity error to the result. -/
theorem C1_chip_conservation_violated :
    totalChips chipLossSession.state = 1300 ∧
    expectedTotal chipLossSession.config = 1300 ∧
    (processAction chipLossSession "hero" PlayerAction.fold 0 none 0).2.success = true ∧
    totalChips (processAction chipLossSession "hero" PlayerAction.fold 0 none 0).1.state
      = 1250 ∧
    (processAction chipLossSession "hero" PlayerAction.fold 0 none 0).2.validationErrors
      = ["Chip integrity error"] := by
  refine ⟨rfl, rfl, ?_, ?_, ?_⟩ <;> decide

/-! ## C6: transactional rollback -/

lemma find?_key_append {v : Nat} {st : GameState} (l : List (Nat × GameState))
    (h : ∀ x ∈ l, x.1 ≠ v) :
    (l ++ [(v, st)]).find? (fun e => e.1 = v) = some (v, st) := by
  rw [List.find?_append]
  have h1 : l.find? (fun e => decide (e.1 = v)) = none :=
    List.find?_eq_none.mpr (fun x hx => by simp [h x hx])
  rw [h1]
  simp

lemma restore_createSnapshot (s : Session) :
    ∃ rest, restoreStateSnapshot (createSnapshot s) s.stateVersion = some rest ∧
      rest.state = s.state := by
  unfold restoreStateSnapshot createSnapshot
  dsimp only
  have hAprop : ∀ x ∈ s.snapshots.filter (fun e => e.1 ≠ s.stateVersion),
      x.1 ≠ s.stateVersion := by
    intro x hx
    simpa using (List.mem_filter.mp hx).2
  by_cases hlen : (s.snapshots.filter (fun e => e.1 ≠ s.stateVersion) ++
      [(s.stateVersion, s.state)]).length > maxSnapshots
  · rw [if_pos hlen]
    have hk : (s.snapshots.filter (fun e => e.1 ≠ s.stateVersion) ++
        [(s.stateVersion, s.state)]).length - maxSnapshots ≤
        (s.snapshots.filter (fun e => e.1 ≠ s.stateVersion)).length := by
      rw [List.length_append]
      simp [maxSnapshots]
    rw [List.drop_append_of_le_length hk]
    rw [find?_key_append _ (fun x hx => hAprop x (List.drop_subset _ _ hx))]
    exact ⟨_, rfl, rfl⟩
  · rw [if_neg hlen]
    rw [find?_key_append _ hAprop]
    exact ⟨_, rfl, rfl⟩

/-- C6: when the mutation raises an unexpected exception, `process_action`
rolls the session back to the pre-action snapshot — the post-call game state
equals the pre-call game state — and returns a failure result carrying the
error. -/
theorem C6_transactional_rollback (s : Session) (pid : String) (a : PlayerAction)
    (amt : Nat) (rid : Option String) (t : Nat) (e : String)
    (hphase : s.state.phase ≠ GamePhase.gameOver)
    (hfresh : ∀ ridv, rid = some ridv → ∀ x ∈ s.processedRequests, x.1 ≠ ridv)
    (hexc : doProcessAction s.state pid a amt = Except.error e) :
    (processAction s pid a amt rid t).2 = failRes e ∧
    (processAction s pid a amt rid t).1.state = s.state := by
  cases rid with
  | none =>
    unfold processAction
    dsimp only
    rw [if_neg hphase]
    rw [show (createSnapshot s).state = s.state from rfl, hexc]
    obtain ⟨rest, hrest, hstate⟩ := restore_createSnapshot s
    rw [hrest]
    exact ⟨rfl, hstate⟩
  | some ridv =>
    unfold processAction
    dsimp only
    have hfind : (cleanupRequestCache s t).processedRequests.find?
        (fun e => e.1 = ridv) = none :=
      List.find?_eq_none.mpr (fun x hx => by
        simpa using hfresh ridv rfl x (List.mem_filter.mp hx).1)
    rw [hfind]
    rw [if_neg (show ¬ (cleanupRequestCache s t).state.phase = GamePhase.gameOver
      from hphase)]
    rw [show (createSnapshot (cleanupRequestCache s t)).state = s.state from rfl, hexc]
    obtain ⟨rest, hrest, hstate⟩ := restore_createSnapshot (cleanupRequestCache s t)
    rw [hrest]
    exact ⟨rfl, hstate⟩

/-- Witness for C6 at `badIndexSession`: the corrupted action position makes
`players[action_on]` raise, and the call rolls back. -/
theorem C6_transactional_rollback_witness :
    badIndexSession.state.phase ≠ GamePhase.gameOver ∧
    doProcessAction badIndexSession.state "hero" PlayerAction.fold 0 =
      Except.error "list index out of range" ∧
    ((processAction badIndexSession "hero" PlayerAction.fold 0 none 0).2 =
        failRes "list index out of range" ∧
      (processAction badIndexSession "hero" PlayerAction.fold 0 none 0).1.state =
        badIndexSession.state) :=
  ⟨by decide, rfl,
    C6_transactional_rollback badIndexSession "hero" PlayerAction.fold 0 none 0
      "list index out of range" (by decide) (fun ridv h => nomatch h) rfl⟩

/-! ## C5: request idempotency -/

lemma processAction_success_shape (s : Session) (pid : String) (a : PlayerAction)
    (amt : Nat) (rid : String) (t : Nat)
    (hfind : (cleanupRequestCache s t).processedRequests.find?
      (fun e => e.1 = rid) = none)
    (hsucc : (processAction s pid a amt (some rid) t).2.success = true) :
    (processAction s pid a amt (some rid) t).1.processedRequests =
      (cleanupRequestCache s t).processedRequests ++
        [(rid, t, (processAction s pid a amt (some rid) t).2)] := by
  unfold processAction at hsucc ⊢
  dsimp only at hsucc ⊢
  rw [hfind] at hsucc ⊢
  dsimp only at hsucc ⊢
  by_cases hph : (cleanupRequestCache s t).state.phase = GamePhase.gameOver
  · rw [if_pos hph] at hsucc
    simp [failRes] at hsucc
  · rw [if_neg hph] at hsucc ⊢
    cases hdo : doProcessAction (createSnapshot (cleanupRequestCache s t)).state pid a amt with
    | error e =>
      rw [hdo] at hsucc
      dsimp only at hsucc
      cases hres : restoreStateSnapshot (createSnapshot (cleanupRequestCache s t))
          (cleanupRequestCache s t).stateVersion with
      | some s2 =>
        rw [hres] at hsucc
        dsimp only at hsucc
        simp [failRes] at hsucc
      | none =>
        rw [hres] at hsucc
        dsimp only at hsucc
        simp [failRes] at hsucc
    | ok pr =>
      obtain ⟨st2, r⟩ := pr
      rw [hdo] at hsucc
      dsimp only at hsucc ⊢
      by_cases hr : r.success = true
      · rw [hr] at hsucc ⊢
        rfl
      · rw [Bool.not_eq_true] at hr
        simp [hr] at hsucc

/-- C5 counterexample: the claim holds no time bound, but the request cache
has a 5-second TTL. Hero's check is processed at `t = 0`; the identical
retry (same `requestId`, same arguments) at `t = 10` is not served from the
cache — it is re-processed against the advanced state and fails with "Not
your turn", a different result from the first call. -/
theorem C5_idempotency_ttl_counterexample :
    (processAction checkSession "hero" PlayerAction.check 0 (some "req1") 0).2.success
      = true ∧
    (processAction
        (processAction checkSession "hero" PlayerAction.check 0 (some "req1") 0).1
        "hero" PlayerAction.check 0 (some "req1") 10).2.success = false ∧
    (processAction
        (processAction checkSession "hero" PlayerAction.check 0 (some "req1") 0).1
        "hero" PlayerAction.check 0 (some "req1") 10).2.error = some "Not your turn" := by
  refine ⟨?_, ?_, ?_⟩ <;> decide

/-- C5 (amended): within the 5-second TTL, a successful action's result is
cached under its fresh `requestId`, and a second call with the same
`requestId` and arguments returns exactly the cached result while leaving
the game state untouched. -/
theorem C5_request_idempotency (s : Session) (pid : String) (a : PlayerAction)
    (amt : Nat) (rid : String) (t₁ t₂ : Nat)
    (hfresh : ∀ x ∈ s.processedRequests, x.1 ≠ rid)
    (hsucc : (processAction s pid a amt (some rid) t₁).2.success = true)
    (httl : t₂ - t₁ ≤ requestCacheTTL) :
    (processAction (processAction s pid a amt (some rid) t₁).1
        pid a amt (some rid) t₂).2 =
      (processAction s pid a amt (some rid) t₁).2 ∧
    (processAction (processAction s pid a amt (some rid) t₁).1
        pid a amt (some rid) t₂).1.state =
      (processAction s pid a amt (some rid) t₁).1.state := by
  have hfind : (cleanupRequestCache s t₁).processedRequests.find?
      (fun e => e.1 = rid) = none :=
    List.find?_eq_none.mpr (fun x hx => by
      simpa using hfresh x (List.mem_filter.mp hx).1)
  have hshape := processAction_success_shape s pid a amt rid t₁ hfind hsucc
  have hkeep : (cleanupRequestCache (processAction s pid a amt (some rid) t₁).1
      t₂).processedRequests =
      ((cleanupRequestCache s t₁).processedRequests.filter
        (fun e => !decide (t₂ - e.2.1 > requestCacheTTL))) ++
      [(rid, t₁, (processAction s pid a amt (some rid) t₁).2)] := by
    unfold cleanupRequestCache
    dsimp only
    rw [hshape, List.filter_append]
    congr 1
    have hok : ¬ (t₂ - t₁ > requestCacheTTL) := by omega
    simp [hok]
  have hfind₂ : (cleanupRequestCache (processAction s pid a amt (some rid) t₁).1
      t₂).processedRequests.find? (fun e => e.1 = rid) =
      some (rid, t₁, (processAction s pid a amt (some rid) t₁).2) := by
    rw [hkeep, List.find?_append]
    have hnone : ((cleanupRequestCache s t₁).processedRequests.filter
        (fun e => !decide (t₂ - e.2.1 > requestCacheTTL))).find?
        (fun e => e.1 = rid) = none :=
      List.find?_eq_none.mpr (fun x hx => by
        have hmem := (List.mem_filter.mp hx).1
        simpa using hfresh x (List.mem_filter.mp hmem).1)
    rw [hnone]
    simp
  constructor
  · conv_lhs => rw [processAction]
    dsimp only
    rw [hfind₂]
    try rfl
  · conv_lhs => rw [processAction]
    dsimp only
    rw [hfind₂]
    try rfl

/-- Witness for C5 at `checkSession`: hero's check at `t = 0` retried at
`t = 3`. -/
theorem C5_request_idempotency_witness :
    (∀ x ∈ checkSession.processedRequests, x.1 ≠ "req1") ∧
    (processAction checkSession "hero" PlayerAction.check 0 (some "req1") 0).2.success
      = true ∧
    3 - 0 ≤ requestCacheTTL ∧
    ((processAction (processAction checkSession "hero" PlayerAction.check 0
          (some "req1") 0).1 "hero" PlayerAction.check 0 (some "req1") 3).2 =
        (processAction checkSession "hero" PlayerAction.check 0 (some "req1") 0).2 ∧
      (processAction (processAction checkSession "hero" PlayerAction.check 0
          (some "req1") 0).1 "hero" PlayerAction.check 0 (some "req1") 3).1.state =
        (processAction checkSession "hero" PlayerAction.check 0 (some "req1") 0).1.state) :=
  ⟨fun x hx => absurd hx (List.not_mem_nil x), by decide, by decide,
    C5_request_idempotency checkSession "hero" PlayerAction.check 0 "req1" 0 3
      (fun x hx => absurd hx (List.not_mem_nil x)) (by decide) (by decide)⟩

end Camelot
